import Mathlib

/-!
Verification development for the clh-bash typing game.

The sources under `src/src/app.js` contain the game's view-model: the
keystroke filter (`validKeycode`), the key handlers (`handleKeypress`,
`handleKeyup`), the command test (`testCmd`), the state setter (`toState`)
and the golden-command sampler (`pickGoldenCommands`).  The auxiliary
modules `keycodes.js`, `cmds.js`, `config.js` and `states.js` are not part
of the sources, so the keycode table, the configuration and the dictionary
are parameters of this development, and `cmds.find` together with the
phase-transition driver is modelled from the specification where noted.
-/

namespace CLHBash

/-- A closed keycode range as stored in the keycode table.  The JS object
has fields `start` and `end`; `end` is a Lean keyword, so the upper bound is
named `stop` here. -/
structure KeyRange where
  start : Nat
  stop : Nat
deriving DecidableEq

/-- The keycode table imported from `keycodes.js`.  That file is not part of
the sources, so the table is a parameter: `validKeycode` only reads the
fields listed here. -/
structure KeyCodes where
  backspace : Nat
  enter : Nat
  ctrl : Nat
  left_arrow : Nat
  right_arrow : Nat
  nums : KeyRange
  alpha : KeyRange
  punct : KeyRange
deriving DecidableEq

/-- lodash `_.inRange(n, start, end)` for the arguments used in
`validKeycode`: `start ≤ n < end`. -/
def inRange (n start stop : Nat) : Bool :=
  decide (start ≤ n) && decide (n < stop)

/-- `validKeycode(ev, leftChar)` from `app.js` lines 20–46.  The module-level
mutable `ctrl_down` is passed in and returned explicitly: the result is
`(accepted, updated ctrl_down)`.  `leftChar` is `none` when there is no
character to the left of the cursor (JS `undefined`, which compares unequal
to a newline). -/
def validKeycode (K : KeyCodes) (ctrl_down : Bool) (kc : Nat) (leftChar : Option Char) :
    Bool × Bool :=
  let ctrl_down := if kc == K.ctrl then true else ctrl_down
  if ctrl_down then (false, ctrl_down)
  else
    let alphanumeric :=
      inRange kc K.nums.start (K.nums.stop + 1) ||
      inRange kc K.alpha.start (K.alpha.stop + 1) ||
      inRange kc K.punct.start (K.punct.stop + 1)
    let valid_other :=
      (kc == K.enter || kc == K.right_arrow) ||
      ((leftChar != some '\n') && (kc == K.left_arrow || kc == K.backspace))
    (alphanumeric || valid_other, ctrl_down)

/-- The control keycode is none of the accepted codes: outside the three
ranges and distinct from enter, the arrows and backspace.  This holds for
the standard DOM keycode table (ctrl is 17). -/
def CtrlExcluded (K : KeyCodes) : Prop :=
  inRange K.ctrl K.nums.start (K.nums.stop + 1) = false ∧
  inRange K.ctrl K.alpha.start (K.alpha.stop + 1) = false ∧
  inRange K.ctrl K.punct.start (K.punct.stop + 1) = false ∧
  K.ctrl ≠ K.enter ∧ K.ctrl ≠ K.right_arrow ∧ K.ctrl ≠ K.left_arrow ∧ K.ctrl ≠ K.backspace

/-- A concrete keycode table with the standard DOM values, used for
witnesses: backspace 8, enter 13, ctrl 17, arrows 37/39, digits 48–57,
letters 65–90, punctuation 186–222. -/
def sampleKeyCodes : KeyCodes :=
  { backspace := 8, enter := 13, ctrl := 17, left_arrow := 37, right_arrow := 39,
    nums := { start := 48, stop := 57 }, alpha := { start := 65, stop := 90 },
    punct := { start := 186, stop := 222 } }

/-- C1: with the control flag not held, the keystroke filter accepts exactly
the codes inside one of the three closed ranges, the enter and right-arrow
codes, and the left-arrow and backspace codes when the character left of the
cursor is not a newline; every other code is rejected. -/
theorem validKeycode_accept_iff (K : KeyCodes) (kc : Nat) (leftChar : Option Char)
    (h : CtrlExcluded K) :
    (validKeycode K false kc leftChar).1 = true ↔
      (inRange kc K.nums.start (K.nums.stop + 1) = true ∨
       inRange kc K.alpha.start (K.alpha.stop + 1) = true ∨
       inRange kc K.punct.start (K.punct.stop + 1) = true ∨
       kc = K.enter ∨ kc = K.right_arrow ∨
       ((kc = K.left_arrow ∨ kc = K.backspace) ∧ leftChar ≠ some '\n')) := by
  obtain ⟨h1, h2, h3, h4, h5, h6, h7⟩ := h
  by_cases hc : kc = K.ctrl
  · subst hc
    simp [validKeycode, h1, h2, h3, h4, h5, h6, h7]
  · simp [validKeycode, hc]
    tauto

/-- Witness for C1: on the standard keycode table, the letter code 65 with no
character left of the cursor is accepted, with the hypothesis discharged
concretely. -/
theorem validKeycode_accept_iff_witness :
    CtrlExcluded sampleKeyCodes ∧
      ((validKeycode sampleKeyCodes false 65 none).1 = true ↔
        (inRange 65 sampleKeyCodes.nums.start (sampleKeyCodes.nums.stop + 1) = true ∨
         inRange 65 sampleKeyCodes.alpha.start (sampleKeyCodes.alpha.stop + 1) = true ∨
         inRange 65 sampleKeyCodes.punct.start (sampleKeyCodes.punct.stop + 1) = true ∨
         65 = sampleKeyCodes.enter ∨ 65 = sampleKeyCodes.right_arrow ∨
         ((65 = sampleKeyCodes.left_arrow ∨ 65 = sampleKeyCodes.backspace) ∧
           (none : Option Char) ≠ some '\n'))) :=
  ⟨⟨by decide, by decide, by decide, by decide, by decide, by decide, by decide⟩,
    validKeycode_accept_iff sampleKeyCodes 65 none
      ⟨by decide, by decide, by decide, by decide, by decide, by decide, by decide⟩⟩

/-- C2: while the control-held flag is set, the keystroke filter returns
false for every key code, including otherwise-valid ones. -/
theorem validKeycode_ctrl_held_rejects (K : KeyCodes) (kc : Nat) (leftChar : Option Char) :
    (validKeycode K true kc leftChar).1 = false := by
  by_cases hc : kc = K.ctrl <;> simp [validKeycode, hc]

/-- JS truthiness of `!!matchedCmd` in `testCmd`: `undefined` (here `none`)
and the empty string are falsy, every other string is truthy. -/
def truthy : Option String → Bool
  | none => false
  | some s => !s.isEmpty

/-- The language tags of the dictionary entries whose command list contains
`line` verbatim, in dictionary order. -/
def findLangs (dict : List (String × List String)) (line : String) : List String :=
  (dict.filter (fun p => decide (line ∈ p.2))).map Prod.fst

/-- Modelled from the spec: `cmds.find` lives in `src/cmds.js`, which is not
among the sources.  Per the spec the lookup is a case-sensitive exact-string
match of `line` against every command string across all languages of the
dictionary; the result is the matched command string (or nothing) together
with every language tag under which that exact string appears. -/
def find (dict : List (String × List String)) (line : String) :
    Option String × List String :=
  (if findLangs dict line = [] then none else some line, findLangs dict line)

/-- JS `String.prototype.trim` on the character list of a string: drop
whitespace from both ends (space, tab, carriage return, newline). -/
def trimChars (l : List Char) : List Char :=
  ((l.dropWhile Char.isWhitespace).reverse.dropWhile Char.isWhitespace).reverse

/-- The line `testCmd` submits to the matcher (`app.js` lines 140–143):
`_(this.cmd).split("\n").last().trim()`, rendered on the buffer's character
list: split on the newline character, take the last piece, trim it. -/
def testCmdLine (buffer : String) : String :=
  String.mk (trimChars ((buffer.data.splitOn '\n').getLastD []))

/-- The result record built by `testCmd` (`app.js` line 145). -/
structure MatchResult where
  cmd : String
  valid : Bool
  matchedCmd : Option String
  lang : List String
deriving DecidableEq

/-- `testCmd` from `app.js` lines 139–150: compute the trailing trimmed
line, run the matcher over the dictionary, and package the result; `valid`
is JS `!!matchedCmd`.  The `onResult` hook is a no-op in `app.js`. -/
def testCmd (dict : List (String × List String)) (buffer : String) : MatchResult :=
  { cmd := testCmdLine buffer
    valid := truthy (find dict (testCmdLine buffer)).1
    matchedCmd := (find dict (testCmdLine buffer)).1
    lang := (find dict (testCmdLine buffer)).2 }

/-- Spec-side definition of the submitted line, following the words of the
spec: the substring of the typed buffer after the last newline (the longest
suffix free of newlines), with whitespace stripped from both ends. -/
def trailingLineSpec (buffer : String) : String :=
  String.mk (trimChars ((buffer.data.reverse.takeWhile (fun c => !(c == '\n'))).reverse))

lemma takeWhile_of_all {α : Type _} {q : α → Bool} :
    ∀ {l : List α}, l.all q = true → l.takeWhile q = l
  | [], _ => rfl
  | a :: l, h => by
    simp only [List.all_cons, Bool.and_eq_true] at h
    simp [List.takeWhile_cons, h.1, takeWhile_of_all h.2]

lemma splitOnP_length_one {α : Type _} {p : α → Bool} :
    ∀ (xs : List α), ((xs.splitOnP p).length = 1 ↔ xs.all (fun a => !(p a)) = true)
  | [] => by simp
  | x :: xs => by
    by_cases h : p x = true
    · simp only [List.splitOnP_cons, if_pos h, List.length_cons, List.all_cons, h,
        Bool.not_true, Bool.false_and]
      constructor
      · intro hl
        exact absurd (List.length_eq_zero.mp (Nat.succ_injective hl))
          (List.splitOnP_ne_nil p xs)
      · intro hl
        cases hl
    · have hx : p x = false := Bool.not_eq_true _ |>.mp h
      rw [List.splitOnP_cons, if_neg h]
      simp only [List.length_modifyHead, List.all_cons, hx, Bool.not_false, Bool.true_and]
      exact splitOnP_length_one xs

/-- The last piece of `splitOnP` is the longest suffix free of separators. -/
lemma getLastD_splitOnP {α : Type _} (p : α → Bool) :
    ∀ (xs : List α),
      (xs.splitOnP p).getLastD [] = (xs.reverse.takeWhile (fun a => !(p a))).reverse
  | [] => by simp
  | x :: xs => by
    have IH := getLastD_splitOnP p xs
    by_cases h : p x = true
    · rw [List.splitOnP_cons, if_pos h, List.getLastD_cons, List.reverse_cons,
        List.takeWhile_append]
      have hqx : (fun a => !(p a)) x = false := by simp [h]
      split_ifs with hlen
      · have hall : xs.reverse.takeWhile (fun a => !(p a)) = xs.reverse :=
          (List.takeWhile_prefix _).eq_of_length hlen
        rw [IH, hall]
        simp [hqx]
      · exact IH
    · have hx : p x = false := Bool.not_eq_true _ |>.mp h
      have hqx : (fun a => !(p a)) x = true := by simp [hx]
      rw [List.splitOnP_cons, if_neg h, List.reverse_cons, List.takeWhile_append]
      split_ifs with hlen
      · have hall : xs.reverse.takeWhile (fun a => !(p a)) = xs.reverse :=
          (List.takeWhile_prefix _).eq_of_length hlen
        have hmem : ∀ a ∈ xs, ¬p a = true := by
          intro a ha
          have : (fun a => !(p a)) a = true := by
            have := List.mem_takeWhile_imp (l := xs.reverse) (p := fun a => !(p a))
              (by rw [hall]; exact List.mem_reverse.mpr ha)
            exact this
          simpa using this
        have hsingle : xs.splitOnP p = [xs] := List.splitOnP_eq_single _ _ hmem
        rw [hsingle]
        simp only [List.modifyHead_cons, List.getLastD_cons, List.getLastD_nil]
        simp [List.takeWhile_cons, hqx, hall]
      · have hlen1 : (xs.splitOnP p).length ≠ 1 := by
          intro h1
          apply hlen
          have hallb : xs.all (fun a => !(p a)) = true := (splitOnP_length_one xs).mp h1
          have : xs.reverse.all (fun a => !(p a)) = true := by
            rw [List.all_reverse]; exact hallb
          rw [takeWhile_of_all this]
        rcases e : xs.splitOnP p with _ | ⟨s0, S⟩
        · exact absurd e (List.splitOnP_ne_nil p xs)
        · rcases S with _ | ⟨s1, t⟩
          · rw [e] at hlen1
            simp at hlen1
          · rw [e] at IH
            rw [List.modifyHead_cons]
            rw [List.getLastD_cons, List.getLastD_cons] at IH ⊢
            rw [IH]

/-- The code's split-last-trim pipeline computes the spec's trailing line. -/
lemma testCmdLine_eq_trailingLineSpec (buffer : String) :
    testCmdLine buffer = trailingLineSpec buffer := by
  unfold testCmdLine trailingLineSpec List.splitOn
  rw [getLastD_splitOnP]

lemma findLangs_ne_nil_iff (dict : List (String × List String)) (line : String) :
    findLangs dict line ≠ [] ↔ ∃ p ∈ dict, line ∈ p.2 := by
  unfold findLangs
  simp [List.filter_eq_nil_iff]

/-- C3: on every Enter the line submitted to the matcher is exactly the
trimmed substring of the typed buffer after the last newline, and a match
requires exact string equality with a dictionary entry: `valid` holds iff
the submitted line occurs verbatim under some language (no partial, fuzzy,
prefix or substring matching).  The hypothesis excludes empty dictionary
entries, under which JS truthiness of the empty string would interfere. -/
theorem testCmd_trailing_line_exact_match (dict : List (String × List String))
    (buffer : String) (hdict : ∀ p ∈ dict, ∀ c ∈ p.2, c ≠ "") :
    (testCmd dict buffer).cmd = trailingLineSpec buffer ∧
      ((testCmd dict buffer).valid = true ↔
        ∃ p ∈ dict, (testCmd dict buffer).cmd ∈ p.2) := by
  refine ⟨testCmdLine_eq_trailingLineSpec buffer, ?_⟩
  show truthy (find dict (testCmdLine buffer)).1 = true ↔
    ∃ p ∈ dict, testCmdLine buffer ∈ p.2
  by_cases hl : findLangs dict (testCmdLine buffer) = []
  · simp only [find, if_pos hl, truthy]
    constructor
    · intro hfalse
      cases hfalse
    · intro hex
      exact absurd hl ((findLangs_ne_nil_iff dict (testCmdLine buffer)).mpr hex)
  · obtain ⟨p, hp, hmem⟩ := (findLangs_ne_nil_iff dict (testCmdLine buffer)).mp hl
    have hne : testCmdLine buffer ≠ "" := hdict p hp _ hmem
    simp only [find, if_neg hl, truthy]
    constructor
    · intro _
      exact ⟨p, hp, hmem⟩
    · intro _
      have hb : ¬((testCmdLine buffer).isEmpty = true) := fun hemp =>
        hne ((String.isEmpty_iff _).mp hemp)
      simp [Bool.not_eq_true _ |>.mp hb]

/-- Witness for C3: against a dictionary whose only entry is the command
`log` under `js`, the buffer `console.log` yields the submitted line
`console.log`, which does not match even though `log` is an entry. -/
theorem testCmd_trailing_line_exact_match_witness :
    (∀ p ∈ [("js", ["log"])], ∀ c ∈ p.2, c ≠ "") ∧
      ((testCmd [("js", ["log"])] "console.log").cmd = trailingLineSpec "console.log" ∧
        ((testCmd [("js", ["log"])] "console.log").valid = true ↔
          ∃ p ∈ [("js", ["log"])], (testCmd [("js", ["log"])] "console.log").cmd ∈ p.2)) :=
  ⟨by decide, testCmd_trailing_line_exact_match [("js", ["log"])] "console.log" (by decide)⟩

/-- The game phases of `states.js` (the file is not among the sources; the
spec lists loading, title, play and end — `end` is a Lean keyword, hence
the constructor `end_`). -/
inductive GState where
  | loading
  | title
  | play
  | end_
deriving DecidableEq

/-- The counter object of the Vue `data` (`app.js` lines 60–67). -/
structure Count where
  js : Nat
  bash : Nat
  html : Nat
  py : Nat
  totalValidCharacters : Nat
  totalValidCommands : Nat
deriving DecidableEq

/-- The session state: the fields of the Vue `data` object that the claims
concern (`app.js` lines 50–68), together with the module-level `ctrl_down`
flag of line 12. -/
structure Session where
  state : GState
  cmd : String
  timer : Nat
  allowTyping : Bool
  score : Nat
  count : Count
  ctrl_down : Bool
deriving DecidableEq

/-- The zeroed counter object. -/
def zeroCount : Count :=
  { js := 0, bash := 0, html := 0, py := 0,
    totalValidCharacters := 0, totalValidCommands := 0 }

/-- The initial `data` object: loading phase, empty buffer, zeroed timer,
typing disabled, zeroed score and counters, control flag clear. -/
def initialSession : Session :=
  { state := GState.loading, cmd := "", timer := 0, allowTyping := false, score := 0,
    count := zeroCount, ctrl_down := false }

/-- `toState` from `app.js` lines 70–75: an unconditional setter for the
phase (the `onStateChange` hook only logs in `app.js`). -/
def toState (s : Session) (st : GState) : Session :=
  { s with state := st }

/-- `app.count[lang]++` for one matched language tag (`app.js` line 106);
tags outside the four languages leave the counters unchanged. -/
def incLang (c : Count) (lang : String) : Count :=
  if lang = "js" then { c with js := c.js + 1 }
  else if lang = "bash" then { c with bash := c.bash + 1 }
  else if lang = "html" then { c with html := c.html + 1 }
  else if lang = "py" then { c with py := c.py + 1 }
  else c

/-- The Enter branch of `handleKeypress` (`app.js` lines 103–127): test the
buffer, bump the per-language counters for every matched language, and on a
valid command add `(10 + length) * 100` to the score and bump both totals. -/
def enterUpdate (dict : List (String × List String)) (s : Session) : Session :=
  if (testCmd dict s.cmd).valid then
    { s with
      score := s.score + (10 + (testCmd dict s.cmd).cmd.length) * 100,
      count :=
        { ((testCmd dict s.cmd).lang.foldl incLang s.count) with
          totalValidCommands :=
            ((testCmd dict s.cmd).lang.foldl incLang s.count).totalValidCommands + 1,
          totalValidCharacters :=
            ((testCmd dict s.cmd).lang.foldl incLang s.count).totalValidCharacters +
              (testCmd dict s.cmd).cmd.length } }
  else { s with count := (testCmd dict s.cmd).lang.foldl incLang s.count }

/-- The outcome of one `handleKeypress` call: the updated session and
whether the event's default was prevented. -/
structure StepOut where
  session : Session
  prevented : Bool
deriving DecidableEq

/-- `handleKeypress` from `app.js` lines 83–132.  With typing disabled the
event is suppressed and the session is unchanged; an Enter key runs the
Enter branch with its default prevented; any other key consults
`validKeycode` (recording its `ctrl_down` side effect) and is prevented
exactly when rejected.  The overridable `onKeyPress` hook is `_.noop`. -/
def handleKeypress (K : KeyCodes) (dict : List (String × List String)) (s : Session)
    (kc : Nat) (leftChar : Option Char) : StepOut :=
  if !s.allowTyping then { session := s, prevented := true }
  else if kc == K.enter then { session := enterUpdate dict s, prevented := true }
  else
    { session := { s with ctrl_down := (validKeycode K s.ctrl_down kc leftChar).2 },
      prevented := !(validKeycode K s.ctrl_down kc leftChar).1 }

/-- `handleKeyup` from `app.js` lines 134–138: a control key-up clears the
control-held flag; every other key-up is ignored. -/
def handleKeyup (K : KeyCodes) (s : Session) (kc : Nat) : Session :=
  if kc == K.ctrl then { s with ctrl_down := false } else s

/-- Modelled from the spec: the game driver that decides which phase
transitions occur is not among the sources (`toState` in `app.js` is an
unconditional setter).  Per the spec, loading moves to title when loading
completes, title moves to play, play moves to end when the countdown
expires, and from end a new round can re-enter title or play. -/
def allowedTransition : GState → GState → Bool
  | GState.loading, GState.title => true
  | GState.title, GState.play => true
  | GState.play, GState.end_ => true
  | GState.end_, GState.title => true
  | GState.end_, GState.play => true
  | _, _ => false

/-- Modelled from the spec: the effect of entering play: enable the typing
filter and reset score, counters and timer to their initial zeroed
values. -/
def startPlay (s : Session) : Session :=
  { s with
    state := GState.play, allowTyping := true, score := 0, timer := 0,
    count := zeroCount }

/-- Modelled from the spec: the effect of entering end: disable typing and
freeze score and counters for display. -/
def endRound (s : Session) : Session :=
  { s with state := GState.end_, allowTyping := false }

/-- Modelled from the spec: perform a requested phase transition when the
machine permits it from the current phase, with the entering-play and
entering-end effects; a forbidden request leaves the session unchanged. -/
def applyTransition (s : Session) (t : GState) : Session :=
  if allowedTransition s.state t then
    match t with
    | GState.play => startPlay s
    | GState.end_ => endRound s
    | _ => toState s t
  else s

/-- Counterexample for C6: the machine also permits re-entering title from
end for a new round, so loading→title, title→play and play→end are not the
only permitted transitions. -/
theorem allowedTransition_end_title :
    allowedTransition GState.end_ GState.title = true := rfl

/-- C6 (amended): the session state machine permits exactly the transitions
loading→title, title→play, play→end, end→title and end→play: from title
only play is reachable, from play only end, and end never transitions to
itself. -/
theorem allowedTransition_characterization :
    ∀ a b : GState, allowedTransition a b = true ↔
      ((a = GState.loading ∧ b = GState.title) ∨
       (a = GState.title ∧ b = GState.play) ∨
       (a = GState.play ∧ b = GState.end_) ∨
       (a = GState.end_ ∧ b = GState.title) ∨
       (a = GState.end_ ∧ b = GState.play)) := by
  intro a b
  cases a <;> cases b <;> simp [allowedTransition]

/-- C7: performing the title→play transition enables typing and resets
score, all counters and the timer to their initial zeroed values. -/
theorem title_to_play_resets (s : Session) (h : s.state = GState.title) :
    (applyTransition s GState.play).allowTyping = true ∧
    (applyTransition s GState.play).state = GState.play ∧
    (applyTransition s GState.play).score = 0 ∧
    (applyTransition s GState.play).timer = 0 ∧
    (applyTransition s GState.play).count = zeroCount := by
  simp [applyTransition, h, allowedTransition, startPlay]

/-- Witness for C7: from the initial session moved to title, entering play
enables typing and zeroes score, counters and timer. -/
theorem title_to_play_resets_witness :
    (toState initialSession GState.title).state = GState.title ∧
      ((applyTransition (toState initialSession GState.title) GState.play).allowTyping = true ∧
       (applyTransition (toState initialSession GState.title) GState.play).state = GState.play ∧
       (applyTransition (toState initialSession GState.title) GState.play).score = 0 ∧
       (applyTransition (toState initialSession GState.title) GState.play).timer = 0 ∧
       (applyTransition (toState initialSession GState.title) GState.play).count = zeroCount) :=
  ⟨rfl, title_to_play_resets (toState initialSession GState.title) rfl⟩

/-- Counterexample for C9: while typing is disabled the handler returns
before the filter is consulted, so a control key-down leaves the
control-held flag clear (the initial session has typing disabled and the
flag clear; 17 is the control code of the standard table). -/
theorem ctrl_keydown_ignored_when_typing_disabled :
    (handleKeypress sampleKeyCodes [] initialSession 17 none).session.ctrl_down = false := by
  simp [handleKeypress, initialSession]

/-- C9 (amended): the control-held flag is cleared on every control key-up;
on a control key-down it is set exactly when typing is enabled — while
typing is disabled the handler returns before the filter runs and the flag
is untouched.  When the filter does run, the flag is set although the
control key-down itself is rejected, so the update is independent of the
accept/reject decision for that event. -/
theorem ctrl_flag_update_policy (K : KeyCodes) (dict : List (String × List String))
    (s : Session) (leftChar : Option Char) (hne : K.ctrl ≠ K.enter) :
    (handleKeyup K s K.ctrl).ctrl_down = false ∧
    (s.allowTyping = true →
      (handleKeypress K dict s K.ctrl leftChar).session.ctrl_down = true ∧
      (handleKeypress K dict s K.ctrl leftChar).prevented = true) ∧
    (s.allowTyping = false →
      (handleKeypress K dict s K.ctrl leftChar).session = s) := by
  refine ⟨by simp [handleKeyup], ?_, ?_⟩
  · intro ht
    have hbeq : (K.ctrl == K.enter) = false := by
      simp [hne]
    constructor
    · simp [handleKeypress, ht, hbeq, validKeycode]
    · simp [handleKeypress, ht, hbeq, validKeycode]
  · intro hf
    simp [handleKeypress, hf]

/-- Witness for C9 (amended): on the standard table, with typing enabled
a control key-down sets the flag and is rejected, a control key-up clears
it, and with typing disabled the session is untouched. -/
theorem ctrl_flag_update_policy_witness :
    sampleKeyCodes.ctrl ≠ sampleKeyCodes.enter ∧
      ((handleKeyup sampleKeyCodes (startPlay initialSession) sampleKeyCodes.ctrl).ctrl_down
          = false ∧
       ((startPlay initialSession).allowTyping = true →
         (handleKeypress sampleKeyCodes [] (startPlay initialSession) sampleKeyCodes.ctrl
             none).session.ctrl_down = true ∧
         (handleKeypress sampleKeyCodes [] (startPlay initialSession) sampleKeyCodes.ctrl
             none).prevented = true) ∧
       ((startPlay initialSession).allowTyping = false →
         (handleKeypress sampleKeyCodes [] (startPlay initialSession) sampleKeyCodes.ctrl
             none).session = startPlay initialSession)) :=
  ⟨by decide, ctrl_flag_update_policy sampleKeyCodes [] (startPlay initialSession) none
    (by decide)⟩

lemma foldl_incLang_totals : ∀ (langs : List String) (c : Count),
    (langs.foldl incLang c).totalValidCommands = c.totalValidCommands ∧
      (langs.foldl incLang c).totalValidCharacters = c.totalValidCharacters
  | [], _ => ⟨rfl, rfl⟩
  | l :: langs, c => by
    have ih := foldl_incLang_totals langs (incLang c l)
    have hl : (incLang c l).totalValidCommands = c.totalValidCommands ∧
        (incLang c l).totalValidCharacters = c.totalValidCharacters := by
      unfold incLang
      split_ifs <;> simp
    rw [List.foldl_cons]
    exact ⟨ih.1.trans hl.1, ih.2.trans hl.2⟩

/-- C10: with typing enabled, an Enter keypress is fully handled before the
keystroke filter is ever consulted: its default is prevented, the trailing
line is tested and score and counters updated, and the handling never reads
or writes the control-held flag — in particular the Enter branch runs the
same way while the flag is set. -/
theorem enter_handled_before_filter (K : KeyCodes) (dict : List (String × List String))
    (s : Session) (leftChar : Option Char) (h : s.allowTyping = true) :
    (handleKeypress K dict s K.enter leftChar).prevented = true ∧
    (handleKeypress K dict s K.enter leftChar).session = enterUpdate dict s ∧
    (handleKeypress K dict { s with ctrl_down := true } K.enter leftChar).session =
      enterUpdate dict { s with ctrl_down := true } ∧
    (enterUpdate dict s).ctrl_down = s.ctrl_down ∧
    (enterUpdate dict s).count.totalValidCommands =
      s.count.totalValidCommands + (if (testCmd dict s.cmd).valid then 1 else 0) ∧
    (enterUpdate dict s).score =
      s.score + (if (testCmd dict s.cmd).valid then
        (10 + (testCmd dict s.cmd).cmd.length) * 100 else 0) := by
  refine ⟨by simp [handleKeypress, h], by simp [handleKeypress, h],
    by simp [handleKeypress, h], ?_, ?_, ?_⟩
  · unfold enterUpdate
    split_ifs <;> simp
  · unfold enterUpdate
    split_ifs with hv <;>
      simp [hv, (foldl_incLang_totals (testCmd dict s.cmd).lang s.count).1]
  · unfold enterUpdate
    split_ifs with hv <;> simp [hv]

/-- Witness for C10: in a playing session whose buffer holds the dictionary
command `ls`, with the control flag set, the Enter keypress is prevented,
evaluated and scored. -/
theorem enter_handled_before_filter_witness :
    (startPlay (toState initialSession GState.title)).allowTyping = true ∧
      ((handleKeypress sampleKeyCodes [("bash", ["ls"])]
          (startPlay (toState initialSession GState.title)) sampleKeyCodes.enter
          none).prevented = true ∧
       (handleKeypress sampleKeyCodes [("bash", ["ls"])]
          (startPlay (toState initialSession GState.title)) sampleKeyCodes.enter
          none).session =
        enterUpdate [("bash", ["ls"])] (startPlay (toState initialSession GState.title)) ∧
       (handleKeypress sampleKeyCodes [("bash", ["ls"])]
          { startPlay (toState initialSession GState.title) with ctrl_down := true }
          sampleKeyCodes.enter none).session =
        enterUpdate [("bash", ["ls"])]
          { startPlay (toState initialSession GState.title) with ctrl_down := true } ∧
       (enterUpdate [("bash", ["ls"])]
          (startPlay (toState initialSession GState.title))).ctrl_down =
        (startPlay (toState initialSession GState.title)).ctrl_down ∧
       (enterUpdate [("bash", ["ls"])]
          (startPlay (toState initialSession GState.title))).count.totalValidCommands =
        (startPlay (toState initialSession GState.title)).count.totalValidCommands +
          (if (testCmd [("bash", ["ls"])]
              (startPlay (toState initialSession GState.title)).cmd).valid then 1 else 0) ∧
       (enterUpdate [("bash", ["ls"])]
          (startPlay (toState initialSession GState.title))).score =
        (startPlay (toState initialSession GState.title)).score +
          (if (testCmd [("bash", ["ls"])]
              (startPlay (toState initialSession GState.title)).cmd).valid then
            (10 + (testCmd [("bash", ["ls"])]
                (startPlay (toState initialSession GState.title)).cmd).cmd.length) * 100
          else 0)) :=
  ⟨rfl, enter_handled_before_filter sampleKeyCodes [("bash", ["ls"])]
    (startPlay (toState initialSession GState.title)) none rfl⟩

/-- One externally-triggered event: a keypress (carrying the character left
of the cursor as supplied by the text widget), a keyup, a buffer mutation
performed by the text widget, or a phase-transition request from the game
driver. -/
inductive Event where
  | keypress (kc : Nat) (leftChar : Option Char)
  | keyup (kc : Nat)
  | setCmd (buffer : String)
  | transition (target : GState)
deriving DecidableEq

/-- One event applied to the session. -/
def step (K : KeyCodes) (dict : List (String × List String)) (s : Session) :
    Event → Session
  | Event.keypress kc leftChar => (handleKeypress K dict s kc leftChar).session
  | Event.keyup kc => handleKeyup K s kc
  | Event.setCmd b => { s with cmd := b }
  | Event.transition t => applyTransition s t

/-- An event trace applied in order. -/
def run (K : KeyCodes) (dict : List (String × List String)) (s : Session) :
    List Event → Session
  | [] => s
  | e :: es => run K dict (step K dict s e) es

/-- 1 for an Enter keypress processed while the phase is play, 0 for any
other event. -/
def enterPlayWeight (K : KeyCodes) (s : Session) : Event → Nat
  | Event.keypress kc _ => if kc = K.enter ∧ s.state = GState.play then 1 else 0
  | _ => 0

/-- The number of Enter keypresses of a trace processed while the phase is
play. -/
def countPlayEnters (K : KeyCodes) (dict : List (String × List String)) (s : Session) :
    List Event → Nat
  | [] => 0
  | e :: es => enterPlayWeight K s e + countPlayEnters K dict (step K dict s e) es

/-- Typing can only be enabled during play. -/
def TypingInv (s : Session) : Prop := s.allowTyping = true → s.state = GState.play

lemma enterUpdate_state (dict : List (String × List String)) (s : Session) :
    (enterUpdate dict s).state = s.state ∧ (enterUpdate dict s).allowTyping = s.allowTyping := by
  unfold enterUpdate
  split_ifs <;> exact ⟨rfl, rfl⟩

lemma step_typingInv (K : KeyCodes) (dict : List (String × List String)) (s : Session)
    (e : Event) (h : TypingInv s) : TypingInv (step K dict s e) := by
  cases e with
  | keypress kc lc =>
    simp only [step]
    unfold handleKeypress
    split_ifs with h1 h2
    · exact h
    · intro hat
      have he := enterUpdate_state dict s
      rw [he.1]
      exact h (he.2 ▸ hat)
    · exact fun hat => h hat
  | keyup kc =>
    simp only [step]
    unfold handleKeyup
    split_ifs
    · exact fun hat => h hat
    · exact h
  | setCmd b => exact fun hat => h hat
  | transition t =>
    simp only [step]
    unfold applyTransition
    split_ifs with hallow
    · cases t with
      | play => exact fun _ => rfl
      | end_ =>
        intro hat
        simp [endRound] at hat
      | title =>
        intro hat
        have hs := h (by simpa [toState] using hat)
        rw [hs] at hallow
        simp [allowedTransition] at hallow
      | loading =>
        intro hat
        have hs := h (by simpa [toState] using hat)
        rw [hs] at hallow
        simp [allowedTransition] at hallow
    · exact h

lemma step_tVC_le (K : KeyCodes) (dict : List (String × List String)) (s : Session)
    (e : Event) (h : TypingInv s) :
    (step K dict s e).count.totalValidCommands ≤
      s.count.totalValidCommands + enterPlayWeight K s e := by
  cases e with
  | keypress kc lc =>
    simp only [step]
    unfold handleKeypress
    split_ifs with h1 h2
    · exact Nat.le_add_right _ _
    · have hkc : kc = K.enter := by simpa using h2
      have hat : s.allowTyping = true := by
        simpa using h1
      have hplay : s.state = GState.play := h hat
      have hw : enterPlayWeight K s (Event.keypress kc lc) = 1 := by
        simp [enterPlayWeight, hkc, hplay]
      rw [hw]
      show (enterUpdate dict s).count.totalValidCommands ≤ s.count.totalValidCommands + 1
      unfold enterUpdate
      split_ifs with hv
      · simp [(foldl_incLang_totals (testCmd dict s.cmd).lang s.count).1]
      · have hf := (foldl_incLang_totals (testCmd dict s.cmd).lang s.count).1
        show ((testCmd dict s.cmd).lang.foldl incLang s.count).totalValidCommands ≤
          s.count.totalValidCommands + 1
        rw [hf]
        exact Nat.le_succ _
    · exact Nat.le_add_right _ _
  | keyup kc =>
    simp only [step]
    unfold handleKeyup
    split_ifs <;> exact Nat.le_add_right _ _
  | setCmd b => exact Nat.le_add_right _ _
  | transition t =>
    simp only [step]
    unfold applyTransition
    split_ifs
    · cases t with
      | play => exact Nat.zero_le _
      | end_ => exact Nat.le_add_right _ _
      | title => exact Nat.le_add_right _ _
      | loading => exact Nat.le_add_right _ _
    · exact Nat.le_add_right _ _

lemma run_tVC_le (K : KeyCodes) (dict : List (String × List String)) :
    ∀ (es : List Event) (s : Session), TypingInv s →
      (run K dict s es).count.totalValidCommands ≤
        s.count.totalValidCommands + countPlayEnters K dict s es
  | [], s, _ => by simp [run, countPlayEnters]
  | e :: es, s, h => by
    have hstep := step_tVC_le K dict s e h
    have ih := run_tVC_le K dict es (step K dict s e) (step_typingInv K dict s e h)
    simp only [run, countPlayEnters]
    omega

/-- C4: starting from the initial session, after any sequence of events the
number of valid commands never exceeds the number of Enter keypresses
processed while the phase is play. -/
theorem totalValidCommands_le_playEnters (K : KeyCodes)
    (dict : List (String × List String)) (es : List Event) :
    (run K dict initialSession es).count.totalValidCommands ≤
      countPlayEnters K dict initialSession es := by
  have hinv : TypingInv initialSession := by
    intro hat
    simp [initialSession] at hat
  have hle := run_tVC_le K dict es initialSession hinv
  simpa [initialSession, zeroCount] using hle

lemma incLang_mono (c : Count) (l : String) :
    c.js ≤ (incLang c l).js ∧ c.bash ≤ (incLang c l).bash ∧
      c.html ≤ (incLang c l).html ∧ c.py ≤ (incLang c l).py := by
  unfold incLang
  split_ifs <;> refine ⟨?_, ?_, ?_, ?_⟩ <;> simp

lemma foldl_incLang_mono : ∀ (langs : List String) (c : Count),
    c.js ≤ (langs.foldl incLang c).js ∧ c.bash ≤ (langs.foldl incLang c).bash ∧
      c.html ≤ (langs.foldl incLang c).html ∧ c.py ≤ (langs.foldl incLang c).py
  | [], _ => ⟨le_refl _, le_refl _, le_refl _, le_refl _⟩
  | l :: langs, c => by
    have ih := foldl_incLang_mono langs (incLang c l)
    have hm := incLang_mono c l
    rw [List.foldl_cons]
    exact ⟨hm.1.trans ih.1, hm.2.1.trans ih.2.1, hm.2.2.1.trans ih.2.2.1,
      hm.2.2.2.trans ih.2.2.2⟩

lemma step_counts_mono (K : KeyCodes) (dict : List (String × List String)) (s : Session)
    (e : Event) (hne : e ≠ Event.transition GState.play) :
    s.count.js ≤ (step K dict s e).count.js ∧
    s.count.bash ≤ (step K dict s e).count.bash ∧
    s.count.html ≤ (step K dict s e).count.html ∧
    s.count.py ≤ (step K dict s e).count.py ∧
    s.score ≤ (step K dict s e).score := by
  cases e with
  | keypress kc lc =>
    simp only [step]
    unfold handleKeypress
    split_ifs
    · exact ⟨le_refl _, le_refl _, le_refl _, le_refl _, le_refl _⟩
    · unfold enterUpdate
      have hm := foldl_incLang_mono (testCmd dict s.cmd).lang s.count
      split_ifs with hv
      · exact ⟨hm.1, hm.2.1, hm.2.2.1, hm.2.2.2, Nat.le_add_right _ _⟩
      · exact ⟨hm.1, hm.2.1, hm.2.2.1, hm.2.2.2, le_refl _⟩
    · exact ⟨le_refl _, le_refl _, le_refl _, le_refl _, le_refl _⟩
  | keyup kc =>
    simp only [step]
    unfold handleKeyup
    split_ifs <;> exact ⟨le_refl _, le_refl _, le_refl _, le_refl _, le_refl _⟩
  | setCmd b => exact ⟨le_refl _, le_refl _, le_refl _, le_refl _, le_refl _⟩
  | transition t =>
    simp only [step]
    unfold applyTransition
    split_ifs
    · cases t with
      | play => exact absurd rfl hne
      | end_ => exact ⟨le_refl _, le_refl _, le_refl _, le_refl _, le_refl _⟩
      | title => exact ⟨le_refl _, le_refl _, le_refl _, le_refl _, le_refl _⟩
      | loading => exact ⟨le_refl _, le_refl _, le_refl _, le_refl _, le_refl _⟩
    · exact ⟨le_refl _, le_refl _, le_refl _, le_refl _, le_refl _⟩

lemma run_counts_mono (K : KeyCodes) (dict : List (String × List String)) :
    ∀ (es : List Event) (s : Session),
      (∀ e ∈ es, e ≠ Event.transition GState.play) →
      s.count.js ≤ (run K dict s es).count.js ∧
      s.count.bash ≤ (run K dict s es).count.bash ∧
      s.count.html ≤ (run K dict s es).count.html ∧
      s.count.py ≤ (run K dict s es).count.py ∧
      s.score ≤ (run K dict s es).score
  | [], _, _ => ⟨le_refl _, le_refl _, le_refl _, le_refl _, le_refl _⟩
  | e :: es, s, h => by
    have hstep := step_counts_mono K dict s e (h e (List.mem_cons_self e es))
    have ih := run_counts_mono K dict es (step K dict s e)
      (fun x hx => h x (List.mem_cons_of_mem e hx))
    simp only [run]
    exact ⟨hstep.1.trans ih.1, hstep.2.1.trans ih.2.1, hstep.2.2.1.trans ih.2.2.1,
      hstep.2.2.2.1.trans ih.2.2.2.1, hstep.2.2.2.2.trans ih.2.2.2.2⟩

/-- C5: within a session — an event trace that contains no entering-play
reset — the four per-language counters and the score are monotonically
non-decreasing: no key event or state update decreases them. -/
theorem counts_and_score_monotone (K : KeyCodes) (dict : List (String × List String))
    (es : List Event) (s : Session)
    (h : ∀ e ∈ es, e ≠ Event.transition GState.play) :
    s.count.js ≤ (run K dict s es).count.js ∧
    s.count.bash ≤ (run K dict s es).count.bash ∧
    s.count.html ≤ (run K dict s es).count.html ∧
    s.count.py ≤ (run K dict s es).count.py ∧
    s.score ≤ (run K dict s es).score :=
  run_counts_mono K dict es s h

/-- Witness for C5: a play session processing an Enter, a control key-up
and the end-of-round transition never decreases the counters or the
score. -/
theorem counts_and_score_monotone_witness :
    (∀ e ∈ [Event.keypress 13 none, Event.keyup 17, Event.transition GState.end_],
        e ≠ Event.transition GState.play) ∧
      ((startPlay initialSession).count.js ≤
        (run sampleKeyCodes [("bash", ["ls"])] (startPlay initialSession)
          [Event.keypress 13 none, Event.keyup 17,
            Event.transition GState.end_]).count.js ∧
       (startPlay initialSession).count.bash ≤
        (run sampleKeyCodes [("bash", ["ls"])] (startPlay initialSession)
          [Event.keypress 13 none, Event.keyup 17,
            Event.transition GState.end_]).count.bash ∧
       (startPlay initialSession).count.html ≤
        (run sampleKeyCodes [("bash", ["ls"])] (startPlay initialSession)
          [Event.keypress 13 none, Event.keyup 17,
            Event.transition GState.end_]).count.html ∧
       (startPlay initialSession).count.py ≤
        (run sampleKeyCodes [("bash", ["ls"])] (startPlay initialSession)
          [Event.keypress 13 none, Event.keyup 17,
            Event.transition GState.end_]).count.py ∧
       (startPlay initialSession).score ≤
        (run sampleKeyCodes [("bash", ["ls"])] (startPlay initialSession)
          [Event.keypress 13 none, Event.keyup 17,
            Event.transition GState.end_]).score) :=
  ⟨by decide, counts_and_score_monotone sampleKeyCodes [("bash", ["ls"])]
    [Event.keypress 13 none, Event.keyup 17, Event.transition GState.end_]
    (startPlay initialSession) (by decide)⟩

/-- The configuration constants from `config.js` (not among the sources):
the maximum golden-command length and the sample size per language are
parameters of the development. -/
structure Config where
  GOLDEN_CMDS_MAX_LENGTH : Nat
  GOLDEN_CMDS_PER_LANG : Nat
deriving DecidableEq

/-- The dictionary shape `cmds.cmdsByLang` as read by `pickGoldenCommands`:
one command list per language. -/
structure CmdsByLang where
  bash : List String
  js : List String
  py : List String
  html : List String
deriving DecidableEq

/-- The `filterCmds` closure of `pickGoldenCommands` (`app.js` lines
171–184): keep the commands whose length is at most the configured
maximum, then drop those starting with an underscore, then drop those
ending with a closing parenthesis. -/
def filterCmds (config : Config) (cmds : List String) : List String :=
  ((cmds.filter (fun cmd => decide (cmd.length ≤ config.GOLDEN_CMDS_MAX_LENGTH))).filter
      (fun cmd => !cmd.startsWith "_")).filter
    (fun cmd => !cmd.endsWith ")")

/-- lodash `_.sampleSize(list, n)`: a uniform random sample of `n` elements
without replacement, i.e. a random shuffle followed by taking the first
`n`.  The randomness is abstracted into the `shuffle` parameter; the
theorems assume it permutes its input. -/
def sampleSize (shuffle : List String → List String) (cmds : List String) (n : Nat) :
    List String :=
  (shuffle cmds).take n

/-- `pickGoldenCommands` from `app.js` lines 163–197: filter each
language's command list and draw the configured number of samples from
it. -/
def pickGoldenCommands (config : Config) (shuffle : List String → List String)
    (cmdsByLang : CmdsByLang) : CmdsByLang :=
  { bash := sampleSize shuffle (filterCmds config cmdsByLang.bash) config.GOLDEN_CMDS_PER_LANG,
    js := sampleSize shuffle (filterCmds config cmdsByLang.js) config.GOLDEN_CMDS_PER_LANG,
    py := sampleSize shuffle (filterCmds config cmdsByLang.py) config.GOLDEN_CMDS_PER_LANG,
    html := sampleSize shuffle (filterCmds config cmdsByLang.html) config.GOLDEN_CMDS_PER_LANG }

/-- What C8 requires of one language's returned sample `result`, drawn from
the source list `src`: every entry respects the three filters, the sample
is no larger than the configured size, and when no more eligible commands
remain the sample is all of them. -/
def GoldenOk (config : Config) (src result : List String) : Prop :=
  (∀ c ∈ result, c.length ≤ config.GOLDEN_CMDS_MAX_LENGTH ∧
    c.startsWith "_" = false ∧ c.endsWith ")" = false) ∧
  result.length ≤ config.GOLDEN_CMDS_PER_LANG ∧
  ((filterCmds config src).length ≤ config.GOLDEN_CMDS_PER_LANG →
    result.Perm (filterCmds config src))

lemma goldenOk_of_perm (config : Config) (shuffle : List String → List String)
    (hs : ∀ l, (shuffle l).Perm l) (src : List String) :
    GoldenOk config src
      (sampleSize shuffle (filterCmds config src) config.GOLDEN_CMDS_PER_LANG) := by
  refine ⟨?_, ?_, ?_⟩
  · intro c hc
    have hmem : c ∈ shuffle (filterCmds config src) := List.mem_of_mem_take hc
    have hmem2 : c ∈ filterCmds config src := (hs _).subset hmem
    unfold filterCmds at hmem2
    rcases List.mem_filter.mp hmem2 with ⟨h12, h3⟩
    rcases List.mem_filter.mp h12 with ⟨h1f, h2⟩
    rcases List.mem_filter.mp h1f with ⟨_, h1⟩
    refine ⟨by simpa using h1, ?_, ?_⟩
    · simpa using h2
    · simpa using h3
  · rw [sampleSize, List.length_take]
    exact min_le_left _ _
  · intro hle
    have hlen : (shuffle (filterCmds config src)).length = (filterCmds config src).length :=
      (hs _).length_eq
    have htake : (shuffle (filterCmds config src)).take config.GOLDEN_CMDS_PER_LANG =
        shuffle (filterCmds config src) :=
      List.take_of_length_le (by rw [hlen]; exact hle)
    rw [sampleSize, htake]
    exact hs _

/-- C8: for every configuration and dictionary, and any shuffle that
permutes its input, every command returned by `pickGoldenCommands` for any
language has length at most the configured maximum, does not start with an
underscore and does not end with a closing parenthesis; each language's
sample has at most the configured size, and when no more eligible commands
remain the sample is exactly the eligible commands. -/
theorem pickGoldenCommands_ok (config : Config) (shuffle : List String → List String)
    (cmdsByLang : CmdsByLang) (hs : ∀ l, (shuffle l).Perm l) :
    GoldenOk config cmdsByLang.bash (pickGoldenCommands config shuffle cmdsByLang).bash ∧
    GoldenOk config cmdsByLang.js (pickGoldenCommands config shuffle cmdsByLang).js ∧
    GoldenOk config cmdsByLang.py (pickGoldenCommands config shuffle cmdsByLang).py ∧
    GoldenOk config cmdsByLang.html (pickGoldenCommands config shuffle cmdsByLang).html :=
  ⟨goldenOk_of_perm config shuffle hs cmdsByLang.bash,
   goldenOk_of_perm config shuffle hs cmdsByLang.js,
   goldenOk_of_perm config shuffle hs cmdsByLang.py,
   goldenOk_of_perm config shuffle hs cmdsByLang.html⟩

/-- A concrete configuration for witnesses: the general rules of the
source's comment, ten characters and a configurable count of two. -/
def sampleConfig : Config :=
  { GOLDEN_CMDS_MAX_LENGTH := 10, GOLDEN_CMDS_PER_LANG := 2 }

/-- A concrete dictionary for witnesses, containing an over-long command,
an underscore-prefixed one and a call-style one to be filtered out. -/
def sampleCmdsByLang : CmdsByLang :=
  { bash := ["ls", "_hidden", "averyverylongcmd", "f()"],
    js := ["log"], py := [], html := [] }

/-- Witness for C8: with the identity shuffle on the concrete dictionary,
every returned command respects the filters and the sample sizes. -/
theorem pickGoldenCommands_ok_witness :
    (∀ l : List String, (id l).Perm l) ∧
      (GoldenOk sampleConfig sampleCmdsByLang.bash
        (pickGoldenCommands sampleConfig id sampleCmdsByLang).bash ∧
       GoldenOk sampleConfig sampleCmdsByLang.js
        (pickGoldenCommands sampleConfig id sampleCmdsByLang).js ∧
       GoldenOk sampleConfig sampleCmdsByLang.py
        (pickGoldenCommands sampleConfig id sampleCmdsByLang).py ∧
       GoldenOk sampleConfig sampleCmdsByLang.html
        (pickGoldenCommands sampleConfig id sampleCmdsByLang).html) :=
  ⟨fun l => List.Perm.refl l,
   pickGoldenCommands_ok sampleConfig id sampleCmdsByLang (fun l => List.Perm.refl l)⟩

end CLHBash
